import Mathlib

/-!
Verification of the lattice option-pricing engine of `numerical_options_rs`.

The repository ships a README and a notebook caller for the single entry point
`calculate_option_price_and_greeks(s0, k, r, t, n, pu, pd, div, sigma,
options_type, is_am)`.  The Rust engine itself (parameter validation, lattice
parameter derivation, backward induction, finite-difference Greeks) is modelled
here from the specification, in exact rational arithmetic.  The transcendental
lattice-parameter derivation (CRR / Leisen-Reimer step factors and risk-neutral
probability, built from exp/log/sqrt) is kept abstract as a derivation function
supplied to the facade; every structural property below is proved for all
derivation functions.
-/

namespace NumericalOptions

/-- Modelled from the spec: which Greek a perturbed reprice was computing when
it failed (`GreekComputationFailed` names the sensitivity). -/
inductive GreekKind where
  | theta
  | vega
  | rho
deriving DecidableEq, Repr

/-- Modelled from the spec: the error taxonomy of §7 — `InvalidParameter`
(bad option-type token, non-positive spot/strike/maturity/volatility, N < 1),
`NumericalInstability` (derived probability outside (0,1)), and
`GreekComputationFailed` wrapping a failed perturbed reprice. -/
inductive PricingError where
  | InvalidParameter
  | NumericalInstability
  | GreekComputationFailed (which : GreekKind)
deriving DecidableEq, Repr

/-- Modelled from the spec: the immutable `OptionParameters` value object of §3,
holding validated contract terms.  `up_prob` / `down_prob` are the legacy
`pu` / `pd` inputs, retained for API compatibility but not used to derive the
risk-neutral measure. -/
structure OptionParameters where
  spot : ℚ
  strike : ℚ
  rate : ℚ
  maturity : ℚ
  steps : ℕ
  up_prob : ℚ
  down_prob : ℚ
  dividend_yield : ℚ
  volatility : ℚ
  is_call : Bool
  is_american : Bool
deriving DecidableEq, Repr

/-- Modelled from the spec: the derived `LatticeParameters` of §3 — up factor
`u`, down factor `d`, risk-neutral up-probability `p`, per-step discount
factor `disc = exp(-r·dt)`. -/
structure LatticeParameters where
  u : ℚ
  d : ℚ
  p : ℚ
  disc : ℚ
deriving DecidableEq, Repr

/-- Modelled from the spec: a lattice-parameter derivation strategy (standard
CRR or Leisen-Reimer), §4.2.  The numeric derivation uses exp/log/sqrt and the
Peizer–Pratt inversion, so it is kept abstract; its inputs are exactly those
the spec names — `(S0, K, r, div, σ, T)` and `N` (never `pu`/`pd`) — and it may
fail with `InvalidParameter` when intermediate probabilities leave (0,1).
Argument order: spot, strike, rate, maturity, dividend yield, volatility,
steps. -/
def DerivFun : Type :=
  ℚ → ℚ → ℚ → ℚ → ℚ → ℚ → ℕ → Except PricingError LatticeParameters

/-- Modelled from the spec: §4.1/§7 validation — the option-type token must be
"call" or "put" (case-sensitive), spot/strike/maturity/volatility strictly
positive, steps ≥ 1.  On success the immutable `OptionParameters` is built. -/
def mkOptionParameters (s0 k r t : ℚ) (n : ℕ) (pu pd div sigma : ℚ)
    (options_type : String) (is_am : Bool) :
    Except PricingError OptionParameters :=
  if (options_type = "call" ∨ options_type = "put") ∧
      0 < s0 ∧ 0 < k ∧ 0 < t ∧ 0 < sigma ∧ 1 ≤ n then
    .ok { spot := s0, strike := k, rate := r, maturity := t, steps := n,
          up_prob := pu, down_prob := pd, dividend_yield := div,
          volatility := sigma, is_call := options_type == "call",
          is_american := is_am }
  else
    .error .InvalidParameter

/-- Modelled from the spec: §4.3 step 2 payoff — call `max(S − K, 0)`,
put `max(K − S, 0)`. -/
def payoff (is_call : Bool) (strike s : ℚ) : ℚ :=
  if is_call then max (s - strike) 0 else max (strike - s) 0

/-- Modelled from the spec: the lattice stock price at time index `i`, node
`j` (number of up moves): `S0 · u^j · d^(i−j)` (§4.3 steps 1 and 3). -/
def stockPriceAt (spot u d : ℚ) (i j : ℕ) : ℚ :=
  spot * u ^ j * d ^ (i - j)

/-- Modelled from the spec: §4.3 step 3 node value at time index `i`, node `j`:
continuation `disc · (p·V_{j+1} + (1−p)·V_j)`, compared against immediate
exercise when the option is American (tie resolved to the continuation
value — observationally the maximum). -/
def nodeValue (op : OptionParameters) (lp : LatticeParameters) (i j : ℕ)
    (vDown vUp : ℚ) : ℚ :=
  let cont := lp.disc * (lp.p * vUp + (1 - lp.p) * vDown)
  if op.is_american then
    max cont (payoff op.is_call op.strike (stockPriceAt op.spot lp.u lp.d i j))
  else cont

/-- Modelled from the spec: §4.3 step 1–2 — the terminal slice of option
values, `payoff(S0·u^j·d^(N−j))` for `j = 0..N`, as the working array. -/
def terminalSlice (op : OptionParameters) (lp : LatticeParameters) : List ℚ :=
  (List.range (op.steps + 1)).map fun j =>
    payoff op.is_call op.strike (stockPriceAt op.spot lp.u lp.d op.steps j)

/-- Modelled from the spec: one backward-induction step (§4.3 step 3): from the
slice at time `i+1` produce the slice at time `i`, nodes `j = 0..i`. -/
def backStep (op : OptionParameters) (lp : LatticeParameters) (i : ℕ)
    (v : List ℚ) : List ℚ :=
  (List.range (i + 1)).map fun j =>
    nodeValue op lp i j (v.getD j 0) (v.getD (j + 1) 0)

/-- Modelled from the spec: the working array after `back` backward-induction
steps from the terminal slice, i.e. the slice at time index `N − back`
(§4.3, iterative single-slice form prescribed in §9). -/
def slicesBack (op : OptionParameters) (lp : LatticeParameters) :
    ℕ → List ℚ
  | 0 => terminalSlice op lp
  | back + 1 => backStep op lp (op.steps - (back + 1)) (slicesBack op lp back)

/-- Modelled from the spec: the option-value slice at time index `i`
(`N − i` backward steps from the terminal slice). -/
def sliceAtStep (op : OptionParameters) (lp : LatticeParameters) (i : ℕ) :
    List ℚ :=
  slicesBack op lp (op.steps - i)

/-- Modelled from the spec: the root value `V_0` of the backward induction,
which is the option price (§4.3 step 4). -/
def rootValue (op : OptionParameters) (lp : LatticeParameters) : ℚ :=
  (slicesBack op lp op.steps).getD 0 0

/-- Modelled from the spec: `LatticeEngine.price` with the §4.3 defensive
re-check — fails with `NumericalInstability` when the risk-neutral
probability lies outside (0,1). -/
def enginePrice (op : OptionParameters) (lp : LatticeParameters) :
    Except PricingError ℚ :=
  if 0 < lp.p ∧ lp.p < 1 then .ok (rootValue op lp)
  else .error .NumericalInstability

/-- Modelled from the spec: §4.4 delta from the step-1 slice of the same
lattice run: `(V_{1,1} − V_{1,0}) / (S0·u − S0·d)`. -/
def deltaOf (op : OptionParameters) (lp : LatticeParameters) : ℚ :=
  let v1 := sliceAtStep op lp 1
  (v1.getD 1 0 - v1.getD 0 0) / (op.spot * lp.u - op.spot * lp.d)

/-- Modelled from the spec: §4.4 gamma from the step-2 slice — centered second
difference over stock price, normalized by the average of the two adjacent
spot increments. -/
def gammaOf (op : OptionParameters) (lp : LatticeParameters) : ℚ :=
  let v2 := sliceAtStep op lp 2
  let sUU := op.spot * lp.u * lp.u
  let sUD := op.spot * lp.u * lp.d
  let sDD := op.spot * lp.d * lp.d
  ((v2.getD 2 0 - v2.getD 1 0) / (sUU - sUD) -
      (v2.getD 1 0 - v2.getD 0 0) / (sUD - sDD)) / ((sUU - sDD) / 2)

/-- Modelled from the spec: §4.4 perturbation sizes — one calendar day for
theta. -/
def deltaT : ℚ := 1 / 365

/-- Modelled from the spec: §4.4 perturbation sizes — one basis point of
volatility for vega. -/
def deltaSigma : ℚ := 1 / 10000

/-- Modelled from the spec: §4.4 perturbation sizes — one basis point of rate
for rho. -/
def deltaR : ℚ := 1 / 10000

/-- Modelled from the spec: one full perturbed re-pricing run (§4.4): fresh
`LatticeParameters` from the derivation strategy at the perturbed rate,
maturity and volatility, then a full `LatticeEngine` pass. -/
def repriceValue (deriv : DerivFun) (op : OptionParameters)
    (r t sigma : ℚ) : Except PricingError ℚ :=
  match deriv op.spot op.strike r t op.dividend_yield sigma op.steps with
  | .error e => .error e
  | .ok lp => enginePrice op lp

/-- Modelled from the spec: §4.4 theta — central difference in calendar time,
`(V(T+δt) − V(T−δt)) / (2·δt)`, holding N fixed; an inner failure surfaces as
`GreekComputationFailed theta`. -/
def thetaOf (deriv : DerivFun) (op : OptionParameters) :
    Except PricingError ℚ :=
  match repriceValue deriv op op.rate (op.maturity + deltaT) op.volatility,
      repriceValue deriv op op.rate (op.maturity - deltaT) op.volatility with
  | .ok vp, .ok vm => .ok ((vp - vm) / (2 * deltaT))
  | _, _ => .error (.GreekComputationFailed .theta)

/-- Modelled from the spec: §4.4 vega — reprice at `σ ± δσ`, central
difference divided by `2·δσ`; an inner failure surfaces as
`GreekComputationFailed vega`. -/
def vegaOf (deriv : DerivFun) (op : OptionParameters) :
    Except PricingError ℚ :=
  match repriceValue deriv op op.rate op.maturity (op.volatility + deltaSigma),
      repriceValue deriv op op.rate op.maturity (op.volatility - deltaSigma) with
  | .ok vp, .ok vm => .ok ((vp - vm) / (2 * deltaSigma))
  | _, _ => .error (.GreekComputationFailed .vega)

/-- Modelled from the spec: §4.4 rho — reprice at `r ± δr`, central difference
divided by `2·δr`; an inner failure surfaces as
`GreekComputationFailed rho`. -/
def rhoOf (deriv : DerivFun) (op : OptionParameters) :
    Except PricingError ℚ :=
  match repriceValue deriv op (op.rate + deltaR) op.maturity op.volatility,
      repriceValue deriv op (op.rate - deltaR) op.maturity op.volatility with
  | .ok vp, .ok vm => .ok ((vp - vm) / (2 * deltaR))
  | _, _ => .error (.GreekComputationFailed .rho)

/-- Modelled from the spec: the pricing pipeline on validated parameters
(§4.5): derive `LatticeParameters` with the supplied strategy, run the engine
once for price (delta and gamma read off the same run), then the
theta/vega/rho repricings, assembling the six-tuple. -/
def runPricing (deriv : DerivFun) (op : OptionParameters) :
    Except PricingError (ℚ × ℚ × ℚ × ℚ × ℚ × ℚ) :=
  match deriv op.spot op.strike op.rate op.maturity op.dividend_yield
      op.volatility op.steps with
  | .error e => .error e
  | .ok lp =>
    match enginePrice op lp with
    | .error e => .error e
    | .ok price =>
      match thetaOf deriv op with
      | .error e => .error e
      | .ok th =>
        match vegaOf deriv op with
        | .error e => .error e
        | .ok ve =>
          match rhoOf deriv op with
          | .error e => .error e
          | .ok rh => .ok (price, deltaOf op lp, gammaOf op lp, th, ve, rh)

/-- Modelled from the spec: the `PricingFacade` / single entry point
`calculate_option_price_and_greeks` (§4.5, §6): validate the raw scalars into
`OptionParameters`, then run the pricing pipeline, returning the six-tuple
`(price, delta, gamma, theta, vega, rho)` or the first failure. -/
def calculate_option_price_and_greeks (deriv : DerivFun)
    (s0 k r t : ℚ) (n : ℕ) (pu pd div sigma : ℚ)
    (options_type : String) (is_am : Bool) :
    Except PricingError (ℚ × ℚ × ℚ × ℚ × ℚ × ℚ) :=
  match mkOptionParameters s0 k r t n pu pd div sigma options_type is_am with
  | .error e => .error e
  | .ok op => runPricing deriv op

/-- Modelled from the spec: the §4.3 backward-induction reference as stated
mathematically — `specValue back j` is the option value at time index
`N − back`, node `j`, defined by downward recursion: terminal payoffs at
`back = 0`, then `C_j = disc·(p·V_{j+1} + (1−p)·V_j)` with early-exercise
comparison when American. -/
def specValue (op : OptionParameters) (lp : LatticeParameters) :
    ℕ → ℕ → ℚ
  | 0, j => payoff op.is_call op.strike
      (stockPriceAt op.spot lp.u lp.d op.steps j)
  | back + 1, j =>
    let cont := lp.disc * (lp.p * specValue op lp back (j + 1) +
      (1 - lp.p) * specValue op lp back j)
    if op.is_american then
      max cont (payoff op.is_call op.strike
        (stockPriceAt op.spot lp.u lp.d (op.steps - (back + 1)) j))
    else cont

deriving instance DecidableEq for Except

/-- A constant derivation strategy used to exercise the facade on concrete
inputs: factors u = 2, d = 1/2, probability p = 1/2, per-step discount 1. -/
def toyDeriv : DerivFun := fun _ _ _ _ _ _ _ => .ok ⟨2, 1/2, 1/2, 1⟩

set_option maxRecDepth 4000

/-! ### Indexing helper -/

theorem getD_map_range (f : ℕ → ℚ) (m j : ℕ) :
    ((List.range m).map f).getD j 0 = if j < m then f j else 0 := by
  rcases lt_or_ge j m with h | h
  · rw [if_pos h, List.getD_eq_getElem?_getD, List.getElem?_map,
      List.getElem?_range h]
    rfl
  · rw [if_neg (not_lt.mpr h), List.getD_eq_getElem?_getD,
      List.getElem?_eq_none (by simpa using h)]
    rfl

/-! ### The iterative engine agrees with the backward-induction recurrence -/

theorem slicesBack_getD_eq_specValue (op : OptionParameters)
    (lp : LatticeParameters) :
    ∀ back j, back ≤ op.steps → j ≤ op.steps - back →
      (slicesBack op lp back).getD j 0 = specValue op lp back j := by
  intro back
  induction back with
  | zero =>
    intro j _ hj
    simp only [slicesBack, terminalSlice, specValue, getD_map_range]
    rw [if_pos (by omega)]
  | succ m ih =>
    intro j hb hj
    simp only [slicesBack, backStep, getD_map_range]
    rw [if_pos (by omega)]
    rw [nodeValue, ih j (by omega) (by omega), ih (j + 1) (by omega) (by omega)]
    rfl

theorem rootValue_eq_specValue (op : OptionParameters)
    (lp : LatticeParameters) :
    rootValue op lp = specValue op lp op.steps 0 := by
  unfold rootValue
  exact slicesBack_getD_eq_specValue op lp op.steps 0 le_rfl (by omega)

/-! ### Inversion lemmas for successful runs -/

theorem enginePrice_ok_inv (op : OptionParameters) (lp : LatticeParameters)
    (x : ℚ) (h : enginePrice op lp = .ok x) :
    (0 < lp.p ∧ lp.p < 1) ∧ x = rootValue op lp := by
  unfold enginePrice at h
  by_cases hc : 0 < lp.p ∧ lp.p < 1
  · rw [if_pos hc] at h
    exact ⟨hc, (Except.ok.inj h).symm⟩
  · rw [if_neg hc] at h
    exact Except.noConfusion h

theorem calc_ok_parts (deriv : DerivFun) (s0 k r t : ℚ) (n : ℕ)
    (pu pd div sigma : ℚ) (ot : String) (am : Bool)
    (out : ℚ × ℚ × ℚ × ℚ × ℚ × ℚ)
    (hout : calculate_option_price_and_greeks deriv s0 k r t n pu pd div
      sigma ot am = .ok out) :
    ∃ lp, deriv s0 k r t div sigma n = .ok lp ∧
      enginePrice ⟨s0, k, r, t, n, pu, pd, div, sigma, ot == "call", am⟩ lp
        = .ok out.1 ∧
      out.2.1 = deltaOf ⟨s0, k, r, t, n, pu, pd, div, sigma, ot == "call", am⟩ lp ∧
      out.2.2.1 = gammaOf ⟨s0, k, r, t, n, pu, pd, div, sigma, ot == "call", am⟩ lp ∧
      thetaOf deriv ⟨s0, k, r, t, n, pu, pd, div, sigma, ot == "call", am⟩
        = .ok out.2.2.2.1 ∧
      vegaOf deriv ⟨s0, k, r, t, n, pu, pd, div, sigma, ot == "call", am⟩
        = .ok out.2.2.2.2.1 ∧
      rhoOf deriv ⟨s0, k, r, t, n, pu, pd, div, sigma, ot == "call", am⟩
        = .ok out.2.2.2.2.2 := by
  by_cases hC : (ot = "call" ∨ ot = "put") ∧
      0 < s0 ∧ 0 < k ∧ 0 < t ∧ 0 < sigma ∧ 1 ≤ n
  · simp only [calculate_option_price_and_greeks, mkOptionParameters,
      if_pos hC, runPricing] at hout
    rcases hd : deriv s0 k r t div sigma n with e | lp
    · rw [hd] at hout; simp at hout
    · rw [hd] at hout
      simp only [] at hout
      rcases hp : enginePrice ⟨s0, k, r, t, n, pu, pd, div, sigma,
          ot == "call", am⟩ lp with e | price
      · rw [hp] at hout; simp at hout
      · rw [hp] at hout
        simp only [] at hout
        rcases ht : thetaOf deriv ⟨s0, k, r, t, n, pu, pd, div, sigma,
            ot == "call", am⟩ with e | th
        · rw [ht] at hout; simp at hout
        · rw [ht] at hout
          simp only [] at hout
          rcases hv : vegaOf deriv ⟨s0, k, r, t, n, pu, pd, div, sigma,
              ot == "call", am⟩ with e | ve
          · rw [hv] at hout; simp at hout
          · rw [hv] at hout
            simp only [] at hout
            rcases hrh : rhoOf deriv ⟨s0, k, r, t, n, pu, pd, div, sigma,
                ot == "call", am⟩ with e | rh
            · rw [hrh] at hout; simp at hout
            · rw [hrh] at hout
              simp only [] at hout
              obtain rfl := (Except.ok.inj hout).symm
              exact ⟨lp, rfl, hp, rfl, rfl, rfl, rfl, rfl⟩
  · simp only [calculate_option_price_and_greeks, mkOptionParameters,
      if_neg hC] at hout
    simp at hout

/-! ### The legacy probabilities `pu` / `pd` are inert

Every engine-level function reads only the contract fields of
`OptionParameters`; the following lemmas canonicalize `up_prob`/`down_prob`
to 0 and are the backbone of the interface-compatibility claims. -/

theorem slicesBack_probs0 (s0 k r t : ℚ) (n : ℕ) (pu pd div sigma : ℚ)
    (c a : Bool) (lp : LatticeParameters) (back : ℕ) :
    slicesBack ⟨s0, k, r, t, n, pu, pd, div, sigma, c, a⟩ lp back
      = slicesBack ⟨s0, k, r, t, n, 0, 0, div, sigma, c, a⟩ lp back := by
  induction back with
  | zero => rfl
  | succ m ih => unfold slicesBack; rw [ih]; rfl

theorem rootValue_probs0 (s0 k r t : ℚ) (n : ℕ) (pu pd div sigma : ℚ)
    (c a : Bool) (lp : LatticeParameters) :
    rootValue ⟨s0, k, r, t, n, pu, pd, div, sigma, c, a⟩ lp
      = rootValue ⟨s0, k, r, t, n, 0, 0, div, sigma, c, a⟩ lp := by
  unfold rootValue
  rw [slicesBack_probs0]

theorem enginePrice_probs0 (s0 k r t : ℚ) (n : ℕ) (pu pd div sigma : ℚ)
    (c a : Bool) (lp : LatticeParameters) :
    enginePrice ⟨s0, k, r, t, n, pu, pd, div, sigma, c, a⟩ lp
      = enginePrice ⟨s0, k, r, t, n, 0, 0, div, sigma, c, a⟩ lp := by
  unfold enginePrice
  rw [rootValue_probs0]

theorem sliceAtStep_probs0 (s0 k r t : ℚ) (n : ℕ) (pu pd div sigma : ℚ)
    (c a : Bool) (lp : LatticeParameters) (i : ℕ) :
    sliceAtStep ⟨s0, k, r, t, n, pu, pd, div, sigma, c, a⟩ lp i
      = sliceAtStep ⟨s0, k, r, t, n, 0, 0, div, sigma, c, a⟩ lp i := by
  unfold sliceAtStep
  rw [slicesBack_probs0]

theorem deltaOf_probs0 (s0 k r t : ℚ) (n : ℕ) (pu pd div sigma : ℚ)
    (c a : Bool) (lp : LatticeParameters) :
    deltaOf ⟨s0, k, r, t, n, pu, pd, div, sigma, c, a⟩ lp
      = deltaOf ⟨s0, k, r, t, n, 0, 0, div, sigma, c, a⟩ lp := by
  simp only [deltaOf]
  rw [sliceAtStep_probs0]

theorem gammaOf_probs0 (s0 k r t : ℚ) (n : ℕ) (pu pd div sigma : ℚ)
    (c a : Bool) (lp : LatticeParameters) :
    gammaOf ⟨s0, k, r, t, n, pu, pd, div, sigma, c, a⟩ lp
      = gammaOf ⟨s0, k, r, t, n, 0, 0, div, sigma, c, a⟩ lp := by
  simp only [gammaOf]
  rw [sliceAtStep_probs0]

theorem repriceValue_probs0 (deriv : DerivFun) (s0 k r t : ℚ) (n : ℕ)
    (pu pd div sigma : ℚ) (c a : Bool) (r' t' sig' : ℚ) :
    repriceValue deriv ⟨s0, k, r, t, n, pu, pd, div, sigma, c, a⟩ r' t' sig'
      = repriceValue deriv ⟨s0, k, r, t, n, 0, 0, div, sigma, c, a⟩ r' t' sig' := by
  simp only [repriceValue]
  rcases hd : deriv s0 k r' t' div sig' n with e | lp <;> simp only [hd]
  exact enginePrice_probs0 s0 k r t n pu pd div sigma c a lp

theorem thetaOf_probs0 (deriv : DerivFun) (s0 k r t : ℚ) (n : ℕ)
    (pu pd div sigma : ℚ) (c a : Bool) :
    thetaOf deriv ⟨s0, k, r, t, n, pu, pd, div, sigma, c, a⟩
      = thetaOf deriv ⟨s0, k, r, t, n, 0, 0, div, sigma, c, a⟩ := by
  simp only [thetaOf, repriceValue_probs0]

theorem vegaOf_probs0 (deriv : DerivFun) (s0 k r t : ℚ) (n : ℕ)
    (pu pd div sigma : ℚ) (c a : Bool) :
    vegaOf deriv ⟨s0, k, r, t, n, pu, pd, div, sigma, c, a⟩
      = vegaOf deriv ⟨s0, k, r, t, n, 0, 0, div, sigma, c, a⟩ := by
  simp only [vegaOf, repriceValue_probs0]

theorem rhoOf_probs0 (deriv : DerivFun) (s0 k r t : ℚ) (n : ℕ)
    (pu pd div sigma : ℚ) (c a : Bool) :
    rhoOf deriv ⟨s0, k, r, t, n, pu, pd, div, sigma, c, a⟩
      = rhoOf deriv ⟨s0, k, r, t, n, 0, 0, div, sigma, c, a⟩ := by
  simp only [rhoOf, repriceValue_probs0]

theorem runPricing_probs0 (deriv : DerivFun) (s0 k r t : ℚ) (n : ℕ)
    (pu pd div sigma : ℚ) (c a : Bool) :
    runPricing deriv ⟨s0, k, r, t, n, pu, pd, div, sigma, c, a⟩
      = runPricing deriv ⟨s0, k, r, t, n, 0, 0, div, sigma, c, a⟩ := by
  simp only [runPricing, enginePrice_probs0, thetaOf_probs0, vegaOf_probs0,
    rhoOf_probs0, deltaOf_probs0, gammaOf_probs0]

/-- The entry point's whole result is invariant under changing the legacy
`pu`/`pd` inputs (shared helper behind the interface-compatibility claims). -/
theorem calc_indep_probs (deriv : DerivFun) (s0 k r t : ℚ) (n : ℕ)
    (pu pd pu' pd' div sigma : ℚ) (ot : String) (am : Bool) :
    calculate_option_price_and_greeks deriv s0 k r t n pu pd div sigma ot am
      = calculate_option_price_and_greeks deriv s0 k r t n pu' pd' div sigma
        ot am := by
  by_cases hC : (ot = "call" ∨ ot = "put") ∧
      0 < s0 ∧ 0 < k ∧ 0 < t ∧ 0 < sigma ∧ 1 ≤ n
  · simp only [calculate_option_price_and_greeks, mkOptionParameters,
      if_pos hC]
    rw [runPricing_probs0 deriv s0 k r t n pu pd div sigma (ot == "call") am,
      runPricing_probs0 deriv s0 k r t n pu' pd' div sigma (ot == "call") am]
  · simp only [calculate_option_price_and_greeks, mkOptionParameters,
      if_neg hC]

/-- C2: whenever `options_type` is neither "call" nor "put" (case-sensitive),
the entry point fails with `InvalidParameter`, for every derivation strategy —
i.e. before any numeric computation begins. -/
theorem C2_invalid_option_type_rejected (deriv : DerivFun)
    (s0 k r t : ℚ) (n : ℕ) (pu pd div sigma : ℚ) (options_type : String)
    (is_am : Bool) (hc : options_type ≠ "call") (hp : options_type ≠ "put") :
    calculate_option_price_and_greeks deriv s0 k r t n pu pd div sigma
      options_type is_am = .error .InvalidParameter := by
  simp [calculate_option_price_and_greeks, mkOptionParameters, hc, hp]

/-- C2 witness: `options_type = "straddle"` is rejected with
`InvalidParameter` on the documented scenario's numbers. -/
theorem C2_invalid_option_type_rejected_witness :
    calculate_option_price_and_greeks (fun _ _ _ _ _ _ _ => .ok ⟨2, 1/2, 1/2, 1⟩)
      100 110 (1/20) 1 1024 (1/50) (1/50) 0 (3/10) "straddle" true
      = .error .InvalidParameter :=
  C2_invalid_option_type_rejected _ 100 110 (1/20) 1 1024 (1/50) (1/50) 0
    (3/10) "straddle" true (by decide) (by decide)

/-- C3: a non-positive spot, strike, maturity or volatility, or a step count
below 1, makes the entry point fail with `InvalidParameter`, for every
derivation strategy — no partial computation is attempted. -/
theorem C3_nonpositive_params_rejected (deriv : DerivFun)
    (s0 k r t : ℚ) (n : ℕ) (pu pd div sigma : ℚ) (options_type : String)
    (is_am : Bool)
    (h : s0 ≤ 0 ∨ k ≤ 0 ∨ t ≤ 0 ∨ sigma ≤ 0 ∨ n < 1) :
    calculate_option_price_and_greeks deriv s0 k r t n pu pd div sigma
      options_type is_am = .error .InvalidParameter := by
  have hneg : ¬((options_type = "call" ∨ options_type = "put") ∧
      0 < s0 ∧ 0 < k ∧ 0 < t ∧ 0 < sigma ∧ 1 ≤ n) := by
    rintro ⟨-, h1, h2, h3, h4, h5⟩
    rcases h with h | h | h | h | h
    · exact absurd h1 h.not_lt
    · exact absurd h2 h.not_lt
    · exact absurd h3 h.not_lt
    · exact absurd h4 h.not_lt
    · exact absurd h5 (by omega)
  simp [calculate_option_price_and_greeks, mkOptionParameters, hneg]

/-- C3 witness: `n = 0` is rejected with `InvalidParameter`. -/
theorem C3_nonpositive_params_rejected_witness :
    calculate_option_price_and_greeks (fun _ _ _ _ _ _ _ => .ok ⟨2, 1/2, 1/2, 1⟩)
      100 110 0 1 0 0 0 0 1 "call" true
      = .error .InvalidParameter :=
  C3_nonpositive_params_rejected _ 100 110 0 1 0 0 0 0 1
    "call" true (by decide)

/-- C4: two calls differing only in the legacy `pu`/`pd` inputs return the
same six-tuple (the risk-neutral probability is derived, never supplied). -/
theorem C4_pu_pd_never_affect_six_tuple (deriv : DerivFun) (s0 k r t : ℚ)
    (n : ℕ) (pu pd pu' pd' div sigma : ℚ) (ot : String) (am : Bool) :
    calculate_option_price_and_greeks deriv s0 k r t n pu pd div sigma ot am
      = calculate_option_price_and_greeks deriv s0 k r t n pu' pd' div sigma
        ot am :=
  calc_indep_probs deriv s0 k r t n pu pd pu' pd' div sigma ot am

/-- C10: the entry point never fails on account of the values of `pu`/`pd`:
for any two prob pairs (summing to 1 or not), one call fails with a given
error exactly when the other does. -/
theorem C10_no_validation_of_pu_pd (deriv : DerivFun) (s0 k r t : ℚ)
    (n : ℕ) (pu pd pu' pd' div sigma : ℚ) (ot : String) (am : Bool)
    (e : PricingError) :
    calculate_option_price_and_greeks deriv s0 k r t n pu pd div sigma ot am
        = .error e
      ↔ calculate_option_price_and_greeks deriv s0 k r t n pu' pd' div sigma
        ot am = .error e := by
  rw [calc_indep_probs deriv s0 k r t n pu pd pu' pd' div sigma ot am]

/-- C9: the entry point is a pure function of its inputs — identical inputs
give identical six-tuples (no hidden mutable state in the model). -/
theorem C9_deterministic (deriv : DerivFun) (s0 s0' k k' r r' t t' : ℚ)
    (n n' : ℕ) (pu pu' pd pd' div div' sigma sigma' : ℚ) (ot ot' : String)
    (am am' : Bool) (h0 : s0 = s0') (h1 : k = k') (h2 : r = r') (h3 : t = t')
    (h4 : n = n') (h5 : pu = pu') (h6 : pd = pd') (h7 : div = div')
    (h8 : sigma = sigma') (h9 : ot = ot') (h10 : am = am') :
    calculate_option_price_and_greeks deriv s0 k r t n pu pd div sigma ot am
      = calculate_option_price_and_greeks deriv s0' k' r' t' n' pu' pd' div'
        sigma' ot' am' := by
  subst h0 h1 h2 h3 h4 h5 h6 h7 h8 h9 h10
  rfl

/-- C9 witness: two textually separate calls on the documented scenario's
numbers agree. -/
theorem C9_deterministic_witness :
    calculate_option_price_and_greeks (fun _ _ _ _ _ _ _ => .ok ⟨2, 1/2, 1/2, 1⟩)
      100 110 (1/20) 1 2 (1/50) (1/50) 0 (3/10) "call" true
      = calculate_option_price_and_greeks
        (fun _ _ _ _ _ _ _ => .ok ⟨2, 1/2, 1/2, 1⟩)
        100 110 (1/20) 1 2 (1/50) (1/50) 0 (3/10) "call" true :=
  C9_deterministic _ 100 100 110 110 (1/20) (1/20) 1 1 2 2 (1/50) (1/50)
    (1/50) (1/50) 0 0 (3/10) (3/10) "call" "call" true true rfl rfl rfl rfl
    rfl rfl rfl rfl rfl rfl rfl

/-! ### Concrete evaluation lemmas for the constant toy derivation -/

theorem toy_engine_am :
    enginePrice ⟨100, 110, 0, 1, 1, 0, 0, 0, 1, true, true⟩ ⟨2, 1/2, 1/2, 1⟩
      = .ok 45 := by
  with_unfolding_all decide

theorem toy_delta_am :
    deltaOf ⟨100, 110, 0, 1, 1, 0, 0, 0, 1, true, true⟩ ⟨2, 1/2, 1/2, 1⟩
      = 3/5 := by
  with_unfolding_all decide

theorem toy_gamma_am :
    gammaOf ⟨100, 110, 0, 1, 1, 0, 0, 0, 1, true, true⟩ ⟨2, 1/2, 1/2, 1⟩
      = -1/125 := by
  with_unfolding_all decide

theorem toy_theta_am :
    thetaOf toyDeriv ⟨100, 110, 0, 1, 1, 0, 0, 0, 1, true, true⟩ = .ok 0 := by
  with_unfolding_all decide

theorem toy_vega_am :
    vegaOf toyDeriv ⟨100, 110, 0, 1, 1, 0, 0, 0, 1, true, true⟩ = .ok 0 := by
  with_unfolding_all decide

theorem toy_rho_am :
    rhoOf toyDeriv ⟨100, 110, 0, 1, 1, 0, 0, 0, 1, true, true⟩ = .ok 0 := by
  with_unfolding_all decide

theorem toy_calc_am :
    calculate_option_price_and_greeks toyDeriv 100 110 0 1 1 0 0 0 1 "call"
      true = .ok (45, 3/5, -1/125, 0, 0, 0) := by
  show runPricing toyDeriv ⟨100, 110, 0, 1, 1, 0, 0, 0, 1, true, true⟩
      = .ok (45, 3/5, -1/125, 0, 0, 0)
  simp only [runPricing, toyDeriv, toy_engine_am, toy_theta_am, toy_vega_am,
    toy_rho_am, toy_delta_am, toy_gamma_am]

theorem toy_engine_eu :
    enginePrice ⟨100, 110, 0, 1, 1, 0, 0, 0, 1, true, false⟩ ⟨2, 1/2, 1/2, 1⟩
      = .ok 45 := by
  with_unfolding_all decide

theorem toy_delta_eu :
    deltaOf ⟨100, 110, 0, 1, 1, 0, 0, 0, 1, true, false⟩ ⟨2, 1/2, 1/2, 1⟩
      = 3/5 := by
  with_unfolding_all decide

theorem toy_gamma_eu :
    gammaOf ⟨100, 110, 0, 1, 1, 0, 0, 0, 1, true, false⟩ ⟨2, 1/2, 1/2, 1⟩
      = -1/125 := by
  with_unfolding_all decide

theorem toy_theta_eu :
    thetaOf toyDeriv ⟨100, 110, 0, 1, 1, 0, 0, 0, 1, true, false⟩ = .ok 0 := by
  with_unfolding_all decide

theorem toy_vega_eu :
    vegaOf toyDeriv ⟨100, 110, 0, 1, 1, 0, 0, 0, 1, true, false⟩ = .ok 0 := by
  with_unfolding_all decide

theorem toy_rho_eu :
    rhoOf toyDeriv ⟨100, 110, 0, 1, 1, 0, 0, 0, 1, true, false⟩ = .ok 0 := by
  with_unfolding_all decide

theorem toy_calc_eu :
    calculate_option_price_and_greeks toyDeriv 100 110 0 1 1 0 0 0 1 "call"
      false = .ok (45, 3/5, -1/125, 0, 0, 0) := by
  show runPricing toyDeriv ⟨100, 110, 0, 1, 1, 0, 0, 0, 1, true, false⟩
      = .ok (45, 3/5, -1/125, 0, 0, 0)
  simp only [runPricing, toyDeriv, toy_engine_eu, toy_theta_eu, toy_vega_eu,
    toy_rho_eu, toy_delta_eu, toy_gamma_eu]

/-- C5: a successful run's returned price is exactly the backward-induction
reference value: terminal payoffs over `S_j = S0·u^j·d^(N−j)`, then
`C_j = disc·(p·V_{j+1} + (1−p)·V_j)` with early-exercise comparison at
`S0·u^j·d^(i−j)` when American (tie to continuation), down to the root. -/
theorem C5_price_is_backward_induction_value (deriv : DerivFun)
    (s0 k r t : ℚ) (n : ℕ) (pu pd div sigma : ℚ) (ot : String) (am : Bool)
    (lp : LatticeParameters) (out : ℚ × ℚ × ℚ × ℚ × ℚ × ℚ)
    (hd : deriv s0 k r t div sigma n = .ok lp)
    (hout : calculate_option_price_and_greeks deriv s0 k r t n pu pd div
      sigma ot am = .ok out) :
    out.1 = specValue ⟨s0, k, r, t, n, pu, pd, div, sigma, ot == "call", am⟩
      lp n 0 := by
  obtain ⟨lp', hd', hp, -⟩ :=
    calc_ok_parts deriv s0 k r t n pu pd div sigma ot am out hout
  rw [hd] at hd'
  obtain rfl := Except.ok.inj hd'
  obtain ⟨-, hre⟩ := enginePrice_ok_inv _ _ _ hp
  rw [hre, rootValue_eq_specValue]

/-- C5 witness: on the toy run, the returned price 145/2 equals the
backward-induction reference value at the root. -/
theorem C5_price_is_backward_induction_value_witness :
    (((45 : ℚ), (3 : ℚ)/5, (-1 : ℚ)/125, (0 : ℚ), (0 : ℚ), (0 : ℚ)) :
      ℚ × ℚ × ℚ × ℚ × ℚ × ℚ).1
      = specValue ⟨100, 110, 0, 1, 1, 0, 0, 0, 1, "call" == "call", true⟩
        ⟨2, 1/2, 1/2, 1⟩ 1 0 :=
  C5_price_is_backward_induction_value toyDeriv 100 110 0 1 1 0 0 0 1 "call"
    true ⟨2, 1/2, 1/2, 1⟩ _ rfl toy_calc_am

/-! ### American backward induction dominates European -/

theorem cont_mono (p disc aD aU bD bU : ℚ) (hp0 : 0 ≤ p) (hp1 : p ≤ 1)
    (hd : 0 ≤ disc) (hU : aU ≤ bU) (hD : aD ≤ bD) :
    disc * (p * aU + (1 - p) * aD) ≤ disc * (p * bU + (1 - p) * bD) := by
  apply mul_le_mul_of_nonneg_left _ hd
  exact add_le_add (mul_le_mul_of_nonneg_left hU hp0)
    (mul_le_mul_of_nonneg_left hD (by linarith))

theorem nodeValue_am_ge_eu (s0 k r t : ℚ) (n : ℕ) (pu pd div sigma : ℚ)
    (c : Bool) (lp : LatticeParameters) (i j : ℕ) (dE uE dA uA : ℚ)
    (hp0 : 0 ≤ lp.p) (hp1 : lp.p ≤ 1) (hdisc : 0 ≤ lp.disc)
    (hD : dE ≤ dA) (hU : uE ≤ uA) :
    nodeValue ⟨s0, k, r, t, n, pu, pd, div, sigma, c, false⟩ lp i j dE uE
      ≤ nodeValue ⟨s0, k, r, t, n, pu, pd, div, sigma, c, true⟩ lp i j dA uA := by
  show lp.disc * (lp.p * uE + (1 - lp.p) * dE)
      ≤ max (lp.disc * (lp.p * uA + (1 - lp.p) * dA))
        (payoff c k (stockPriceAt s0 lp.u lp.d i j))
  exact le_trans (cont_mono lp.p lp.disc dE uE dA uA hp0 hp1 hdisc hU hD)
    (le_max_left _ _)

theorem slicesBack_am_ge_eu (s0 k r t : ℚ) (n : ℕ) (pu pd div sigma : ℚ)
    (c : Bool) (lp : LatticeParameters) (hp0 : 0 ≤ lp.p) (hp1 : lp.p ≤ 1)
    (hdisc : 0 ≤ lp.disc) :
    ∀ back j,
      (slicesBack ⟨s0, k, r, t, n, pu, pd, div, sigma, c, false⟩ lp
        back).getD j 0
      ≤ (slicesBack ⟨s0, k, r, t, n, pu, pd, div, sigma, c, true⟩ lp
        back).getD j 0 := by
  intro back
  induction back with
  | zero => intro j; exact le_rfl
  | succ m ih =>
    intro j
    simp only [slicesBack, backStep, getD_map_range]
    by_cases hj : j < n - (m + 1) + 1
    · rw [if_pos hj, if_pos hj]
      exact nodeValue_am_ge_eu s0 k r t n pu pd div sigma c lp (n - (m + 1))
        j _ _ _ _ hp0 hp1 hdisc (ih j) (ih (j + 1))
    · rw [if_neg hj, if_neg hj]

theorem rootValue_am_ge_eu (s0 k r t : ℚ) (n : ℕ) (pu pd div sigma : ℚ)
    (c : Bool) (lp : LatticeParameters) (hp0 : 0 ≤ lp.p) (hp1 : lp.p ≤ 1)
    (hdisc : 0 ≤ lp.disc) :
    rootValue ⟨s0, k, r, t, n, pu, pd, div, sigma, c, false⟩ lp
      ≤ rootValue ⟨s0, k, r, t, n, pu, pd, div, sigma, c, true⟩ lp := by
  unfold rootValue
  exact slicesBack_am_ge_eu s0 k r t n pu pd div sigma c lp hp0 hp1 hdisc n 0

/-- C6: with the same derived lattice parameters (whose per-step discount is
nonnegative, as `disc = exp(-r·dt)` always is), a successful American run's
price is at least the matching European run's price. -/
theorem C6_american_price_ge_european (deriv : DerivFun) (s0 k r t : ℚ)
    (n : ℕ) (pu pd div sigma : ℚ) (ot : String) (lp : LatticeParameters)
    (outA outE : ℚ × ℚ × ℚ × ℚ × ℚ × ℚ)
    (hd : deriv s0 k r t div sigma n = .ok lp)
    (hdisc : 0 ≤ lp.disc)
    (hA : calculate_option_price_and_greeks deriv s0 k r t n pu pd div sigma
      ot true = .ok outA)
    (hE : calculate_option_price_and_greeks deriv s0 k r t n pu pd div sigma
      ot false = .ok outE) :
    outE.1 ≤ outA.1 := by
  obtain ⟨lpA, hdA, hpA, -⟩ :=
    calc_ok_parts deriv s0 k r t n pu pd div sigma ot true outA hA
  obtain ⟨lpE, hdE, hpE, -⟩ :=
    calc_ok_parts deriv s0 k r t n pu pd div sigma ot false outE hE
  rw [hd] at hdA hdE
  obtain rfl := Except.ok.inj hdA
  obtain rfl := Except.ok.inj hdE
  obtain ⟨⟨hp0, hp1⟩, hreA⟩ := enginePrice_ok_inv _ _ _ hpA
  obtain ⟨-, hreE⟩ := enginePrice_ok_inv _ _ _ hpE
  rw [hreA, hreE]
  exact rootValue_am_ge_eu s0 k r t n pu pd div sigma (ot == "call") lp
    hp0.le hp1.le hdisc

/-- C6 witness: on the toy run the American price 145/2 dominates the
European price 145/2. -/
theorem C6_american_price_ge_european_witness :
    (((45 : ℚ), (3 : ℚ)/5, (-1 : ℚ)/125, (0 : ℚ), (0 : ℚ), (0 : ℚ)) :
      ℚ × ℚ × ℚ × ℚ × ℚ × ℚ).1
      ≤ (((45 : ℚ), (3 : ℚ)/5, (-1 : ℚ)/125, (0 : ℚ), (0 : ℚ),
        (0 : ℚ)) : ℚ × ℚ × ℚ × ℚ × ℚ × ℚ).1 :=
  C6_american_price_ge_european toyDeriv 100 110 0 1 1 0 0 0 1 "call"
    ⟨2, 1/2, 1/2, 1⟩ _ _ rfl (by decide) toy_calc_am toy_calc_eu

/-! ### Every successful theta/vega/rho is a central difference of two
full perturbed reprices -/

theorem thetaOf_ok_inv (deriv : DerivFun) (op : OptionParameters) (th : ℚ)
    (h : thetaOf deriv op = .ok th) :
    ∃ vp vm,
      repriceValue deriv op op.rate (op.maturity + deltaT) op.volatility
        = .ok vp ∧
      repriceValue deriv op op.rate (op.maturity - deltaT) op.volatility
        = .ok vm ∧
      th = (vp - vm) / (2 * deltaT) := by
  unfold thetaOf at h
  rcases h1 : repriceValue deriv op op.rate (op.maturity + deltaT)
      op.volatility with e | vp
  · rw [h1] at h
    simp only [] at h
    exact Except.noConfusion h
  · rw [h1] at h
    rcases h2 : repriceValue deriv op op.rate (op.maturity - deltaT)
        op.volatility with e | vm
    · rw [h2] at h
      simp only [] at h
      exact Except.noConfusion h
    · rw [h2] at h
      simp only [] at h
      exact ⟨vp, vm, rfl, rfl, (Except.ok.inj h).symm⟩

theorem vegaOf_ok_inv (deriv : DerivFun) (op : OptionParameters) (ve : ℚ)
    (h : vegaOf deriv op = .ok ve) :
    ∃ vp vm,
      repriceValue deriv op op.rate op.maturity (op.volatility + deltaSigma)
        = .ok vp ∧
      repriceValue deriv op op.rate op.maturity (op.volatility - deltaSigma)
        = .ok vm ∧
      ve = (vp - vm) / (2 * deltaSigma) := by
  unfold vegaOf at h
  rcases h1 : repriceValue deriv op op.rate op.maturity
      (op.volatility + deltaSigma) with e | vp
  · rw [h1] at h
    simp only [] at h
    exact Except.noConfusion h
  · rw [h1] at h
    rcases h2 : repriceValue deriv op op.rate op.maturity
        (op.volatility - deltaSigma) with e | vm
    · rw [h2] at h
      simp only [] at h
      exact Except.noConfusion h
    · rw [h2] at h
      simp only [] at h
      exact ⟨vp, vm, rfl, rfl, (Except.ok.inj h).symm⟩

theorem rhoOf_ok_inv (deriv : DerivFun) (op : OptionParameters) (rh : ℚ)
    (h : rhoOf deriv op = .ok rh) :
    ∃ vp vm,
      repriceValue deriv op (op.rate + deltaR) op.maturity op.volatility
        = .ok vp ∧
      repriceValue deriv op (op.rate - deltaR) op.maturity op.volatility
        = .ok vm ∧
      rh = (vp - vm) / (2 * deltaR) := by
  unfold rhoOf at h
  rcases h1 : repriceValue deriv op (op.rate + deltaR) op.maturity
      op.volatility with e | vp
  · rw [h1] at h
    simp only [] at h
    exact Except.noConfusion h
  · rw [h1] at h
    rcases h2 : repriceValue deriv op (op.rate - deltaR) op.maturity
        op.volatility with e | vm
    · rw [h2] at h
      simp only [] at h
      exact Except.noConfusion h
    · rw [h2] at h
      simp only [] at h
      exact ⟨vp, vm, rfl, rfl, (Except.ok.inj h).symm⟩

/-- C7: in every successful run, theta, vega and rho are central finite
differences of two full re-pricing runs — in maturity (step `deltaT`, same
step count N), volatility (step `deltaSigma`) and rate (step `deltaR`)
respectively, all other parameters held fixed. -/
theorem C7_greeks_are_central_differences (deriv : DerivFun) (s0 k r t : ℚ)
    (n : ℕ) (pu pd div sigma : ℚ) (ot : String) (am : Bool)
    (out : ℚ × ℚ × ℚ × ℚ × ℚ × ℚ)
    (hout : calculate_option_price_and_greeks deriv s0 k r t n pu pd div
      sigma ot am = .ok out) :
    (∃ vp vm,
      repriceValue deriv ⟨s0, k, r, t, n, pu, pd, div, sigma, ot == "call", am⟩
        r (t + deltaT) sigma = .ok vp ∧
      repriceValue deriv ⟨s0, k, r, t, n, pu, pd, div, sigma, ot == "call", am⟩
        r (t - deltaT) sigma = .ok vm ∧
      out.2.2.2.1 = (vp - vm) / (2 * deltaT)) ∧
    (∃ vp vm,
      repriceValue deriv ⟨s0, k, r, t, n, pu, pd, div, sigma, ot == "call", am⟩
        r t (sigma + deltaSigma) = .ok vp ∧
      repriceValue deriv ⟨s0, k, r, t, n, pu, pd, div, sigma, ot == "call", am⟩
        r t (sigma - deltaSigma) = .ok vm ∧
      out.2.2.2.2.1 = (vp - vm) / (2 * deltaSigma)) ∧
    (∃ vp vm,
      repriceValue deriv ⟨s0, k, r, t, n, pu, pd, div, sigma, ot == "call", am⟩
        (r + deltaR) t sigma = .ok vp ∧
      repriceValue deriv ⟨s0, k, r, t, n, pu, pd, div, sigma, ot == "call", am⟩
        (r - deltaR) t sigma = .ok vm ∧
      out.2.2.2.2.2 = (vp - vm) / (2 * deltaR)) := by
  obtain ⟨lp, hd, hp, hde, hga, ht, hv, hrh⟩ :=
    calc_ok_parts deriv s0 k r t n pu pd div sigma ot am out hout
  refine ⟨?_, ?_, ?_⟩
  · obtain ⟨vp, vm, h1, h2, h3⟩ := thetaOf_ok_inv _ _ _ ht
    exact ⟨vp, vm, h1, h2, h3⟩
  · obtain ⟨vp, vm, h1, h2, h3⟩ := vegaOf_ok_inv _ _ _ hv
    exact ⟨vp, vm, h1, h2, h3⟩
  · obtain ⟨vp, vm, h1, h2, h3⟩ := rhoOf_ok_inv _ _ _ hrh
    exact ⟨vp, vm, h1, h2, h3⟩

/-- C7 witness: on the toy run, theta, vega and rho (all 0) are the stated
central differences of the perturbed reprices (each `.ok 45`). -/
theorem C7_greeks_are_central_differences_witness :
    (∃ vp vm,
      repriceValue toyDeriv
        ⟨100, 110, 0, 1, 1, 0, 0, 0, 1, "call" == "call", true⟩
        0 (1 + deltaT) 1 = .ok vp ∧
      repriceValue toyDeriv
        ⟨100, 110, 0, 1, 1, 0, 0, 0, 1, "call" == "call", true⟩
        0 (1 - deltaT) 1 = .ok vm ∧
      (((45 : ℚ), (3 : ℚ)/5, (-1 : ℚ)/125, (0 : ℚ), (0 : ℚ), (0 : ℚ)) :
        ℚ × ℚ × ℚ × ℚ × ℚ × ℚ).2.2.2.1 = (vp - vm) / (2 * deltaT)) ∧
    (∃ vp vm,
      repriceValue toyDeriv
        ⟨100, 110, 0, 1, 1, 0, 0, 0, 1, "call" == "call", true⟩
        0 1 (1 + deltaSigma) = .ok vp ∧
      repriceValue toyDeriv
        ⟨100, 110, 0, 1, 1, 0, 0, 0, 1, "call" == "call", true⟩
        0 1 (1 - deltaSigma) = .ok vm ∧
      (((45 : ℚ), (3 : ℚ)/5, (-1 : ℚ)/125, (0 : ℚ), (0 : ℚ), (0 : ℚ)) :
        ℚ × ℚ × ℚ × ℚ × ℚ × ℚ).2.2.2.2.1 = (vp - vm) / (2 * deltaSigma)) ∧
    (∃ vp vm,
      repriceValue toyDeriv
        ⟨100, 110, 0, 1, 1, 0, 0, 0, 1, "call" == "call", true⟩
        (0 + deltaR) 1 1 = .ok vp ∧
      repriceValue toyDeriv
        ⟨100, 110, 0, 1, 1, 0, 0, 0, 1, "call" == "call", true⟩
        (0 - deltaR) 1 1 = .ok vm ∧
      (((45 : ℚ), (3 : ℚ)/5, (-1 : ℚ)/125, (0 : ℚ), (0 : ℚ), (0 : ℚ)) :
        ℚ × ℚ × ℚ × ℚ × ℚ × ℚ).2.2.2.2.2 = (vp - vm) / (2 * deltaR)) :=
  C7_greeks_are_central_differences toyDeriv 100 110 0 1 1 0 0 0 1 "call"
    true _ toy_calc_am

end NumericalOptions
